import Mathlib

/-!
Verification development for the Instagram media downloader workers
(`src/worker.js` and the two unnamed worker variants `src/unnamed/part_000`,
`src/unnamed/part_001`).

Strings are modelled as `List Char`.  The JavaScript string operations used by
the source (trim, includes, split, replace with a global literal pattern, and
regex scanning for the fixed patterns appearing in the source) are embedded as
executable structural-recursive Lean functions so that all concrete properties
evaluate by `decide` / `rfl`.

Network effects are abstracted: each strategy of a fallback chain is modelled
by its outcome (`Except` of an error message or a parsed result), and the
chain orchestration loops are embedded as pure functions over the list of
outcomes, additionally returning the number of strategies invoked so that
short-circuit properties are expressible.
-/

abbrev S : Type := List Char

def str (s : String) : S := s.data

/-- The backslash character. -/
def bsC : Char := Char.ofNat 92

/-- The double-quote character. -/
def qqC : Char := Char.ofNat 34

/-- The apostrophe character. -/
def apoC : Char := Char.ofNat 39

/-- JS whitespace for `trim` (the common ASCII part; exotic unicode space
characters are not modelled). -/
def isWsChar (c : Char) : Bool :=
  (c == ' ') || (c == Char.ofNat 9) || (c == Char.ofNat 10) ||
    (c == Char.ofNat 13) || (c == Char.ofNat 11) || (c == Char.ofNat 12)

def trimL (s : S) : S := s.dropWhile isWsChar

def trimR (s : S) : S := (s.reverse.dropWhile isWsChar).reverse

/-- JS `String.prototype.trim`. -/
def trim (s : S) : S := trimR (trimL s)

/-- JS `String.prototype.includes`: `pat` occurs as a contiguous substring. -/
def occursIn (pat : S) : S → Bool
  | [] => pat.isEmpty
  | c :: rest => pat.isPrefixOf (c :: rest) || occursIn pat rest

/-- JS `String.prototype.replace` with a global pattern that is a string
literal (used for the unescaping steps of the source): scan left to right,
replace non-overlapping occurrences, continue scanning after each match.
The `Nat` argument counts characters of an emitted match still to be consumed.
All patterns used in the source are nonempty. -/
def replaceAllAux (pat rep : S) : Nat → S → S
  | _ + 1, [] => []
  | skip + 1, _ :: rest => replaceAllAux pat rep skip rest
  | 0, [] => []
  | 0, c :: rest =>
    if pat.isPrefixOf (c :: rest) then
      rep ++ replaceAllAux pat rep (pat.length - 1) rest
    else c :: replaceAllAux pat rep 0 rest

def replaceAll (pat rep s : S) : S := replaceAllAux pat rep 0 s

/-- JS `String.prototype.replace` with a plain-string pattern: first
occurrence only. -/
def replaceFirst (pat rep : S) : S → S
  | [] => []
  | c :: rest =>
    if pat.isPrefixOf (c :: rest) then rep ++ (c :: rest).drop pat.length
    else c :: replaceFirst pat rep rest

def litInsta : S := str "instagram.com"

/-- Source function `cleanInstagramUrl` (worker.js lines 660-671; identical in part_000 lines
517-528 and part_001 lines 497-508): trim, and if the string mentions
`instagram.com`, drop everything from the first `?` on and ensure a trailing
slash. -/
def cleanInstagramUrl (url : S) : S :=
  let c := trim url
  if occursIn litInsta c then
    let b := c.takeWhile (fun ch => ch != '?')
    if b.getLast? == some '/' then b else b ++ ['/']
  else c

/-- Character class `[A-Za-z0-9_-]` of the post/reel/tv id patterns. -/
def idChar (c : Char) : Bool := c.isAlpha || c.isDigit || (c == '_') || (c == '-')

/-- Character class `[A-Za-z0-9_.-]` of the stories username pattern. -/
def storyChar (c : Char) : Bool := idChar c || (c == '.')

def litHttps : S := str "https://"
def litHttp : S := str "http://"
def litWww : S := str "www."
def litHost : S := str "instagram.com/"
def litP : S := str "p/"
def litReel : S := str "reel/"
def litTv : S := str "tv/"
def litStories : S := str "stories/"

/-- Match a literal prefix and return the remainder. -/
def stripPre (pre s : S) : Option S :=
  if pre.isPrefixOf s then some (s.drop pre.length) else none

/-- Matches `https?:\/\/` at the start of the string. -/
def afterScheme (s : S) : Option S :=
  match stripPre litHttps s with
  | some r => some r
  | none => stripPre litHttp s

/-- Matches `https?:\/\/(www\.)?instagram\.com\/` at the start of the string. -/
def afterHost (s : S) : Option S :=
  match afterScheme s with
  | none => none
  | some r =>
    match stripPre litWww r with
    | some r2 => stripPre litHost r2
    | none => stripPre litHost r

/-- Matches `<tag>[A-Za-z0-9_-]+\/?` where the regex is not end-anchored: it suffices
that at least one id character follows the tag. -/
def checkTail (tag : S) (r : S) : Bool :=
  match stripPre tag r with
  | some (c :: _) => idChar c
  | some [] => false
  | none => false

/-- Scanning the rest of `[A-Za-z0-9_.-]+\/[0-9]+` after its first character:
the username class excludes `/`, so the first `/` must be followed by a
digit (the regex is not end-anchored; one digit suffices). -/
def storiesAux : S → Bool
  | [] => false
  | c :: rest =>
    if c = '/' then
      match rest with
      | d :: _ => d.isDigit
      | [] => false
    else storyChar c && storiesAux rest

/-- Matches `[A-Za-z0-9_.-]+\/[0-9]+` (nonempty username run, then `/`, then a digit). -/
def storiesTail : S → Bool
  | [] => false
  | c :: rest => storyChar c && storiesAux rest

def checkStories (r : S) : Bool :=
  match stripPre litStories r with
  | some rest => storiesTail rest
  | none => false

/-- Source function `isValidInstagramUrl` (worker.js lines 673-682, identical in both other
variants): the four `^https?:\/\/(www\.)?instagram\.com\/...` regexes, which
are start-anchored only, so acceptance depends only on a prefix of the
string. -/
def isValidInstagramUrl (s : S) : Bool :=
  match afterHost s with
  | none => false
  | some r =>
    checkTail litP r || checkTail litReel r || checkTail litTv r || checkStories r

/-- One alternative of `\/(?:p|reel|tv)\/(<class>+)` tried at a fixed position
(just after a `/`): match the tag literal, then capture a maximal nonempty run
of class characters. -/
def tryTagWith (idp : Char → Bool) (tag : S) (s : S) : Option S :=
  match stripPre tag s with
  | some rest =>
    match rest.takeWhile idp with
    | [] => none
    | c :: run => some (c :: run)
  | none => none

/-- The alternation `(?:p|reel|tv)\/(<class>+)` tried at a fixed position. -/
def shortcodeAtWith (idp : Char → Bool) (s : S) : Option S :=
  match tryTagWith idp litP s with
  | some r => some r
  | none =>
    match tryTagWith idp litReel s with
    | some r => some r
    | none => tryTagWith idp litTv s

/-- Unanchored leftmost search for `\/(?:p|reel|tv)\/(<class>+)`. -/
def extractShortcodeWith (idp : Char → Bool) : S → Option S
  | [] => none
  | c :: rest =>
    if c = '/' then
      match shortcodeAtWith idp rest with
      | some r => some r
      | none => extractShortcodeWith idp rest
    else extractShortcodeWith idp rest

/-- Source function `extractShortcode` of worker.js lines 655-658 and part_000 lines 512-515:
`url.match(/\/(?:p|reel|tv)\/([A-Za-z0-9_-]+)/)`. -/
def extractShortcode : S → Option S := extractShortcodeWith idChar

/-- Source function `extractShortcode` of part_001 lines 318-321:
`url.match(/\/(?:p|reel|tv)\/([^\/\?]+)/)`. -/
def extractShortcodeLoose : S → Option S :=
  extractShortcodeWith (fun c => (c != '/') && (c != '?'))

/-! ### Spec-side URL shapes

The spec describes the recognized inputs as the post/reel/igtv/story path
shapes, with or without query string and with or without trailing slash.
These renderers produce exactly those strings; they are the spec-side
counterpart against which the code's validator is checked. -/

inductive PostKind | p | reel | tv
deriving DecidableEq

def kindLit : PostKind → S
  | .p => litP
  | .reel => litReel
  | .tv => litTv

structure ShapedPost where
  secure : Bool
  www : Bool
  kind : PostKind
  ident : S
  slash : Bool
  query : Option S
deriving DecidableEq

def schemeLit (secure : Bool) : S := if secure then litHttps else litHttp

def wwwLit (www : Bool) : S := if www then litWww else []

def slashLit (slash : Bool) : S := if slash then ['/'] else []

def queryLit : Option S → S
  | some q => '?' :: q
  | none => []

def ShapedPost.render (x : ShapedPost) : S :=
  schemeLit x.secure ++ (wwwLit x.www ++ (litHost ++
    (kindLit x.kind ++ (x.ident ++ (slashLit x.slash ++ queryLit x.query)))))

def ShapedPost.WF (x : ShapedPost) : Prop :=
  x.ident ≠ [] ∧ ∀ c ∈ x.ident, idChar c = true

structure ShapedStory where
  secure : Bool
  www : Bool
  user : S
  num : S
  slash : Bool
  query : Option S
deriving DecidableEq

def ShapedStory.render (y : ShapedStory) : S :=
  schemeLit y.secure ++ (wwwLit y.www ++ (litHost ++ (litStories ++
    (y.user ++ ('/' :: (y.num ++ (slashLit y.slash ++ queryLit y.query)))))))

def ShapedStory.WF (y : ShapedStory) : Prop :=
  y.user ≠ [] ∧ (∀ c ∈ y.user, storyChar c = true) ∧
    y.num ≠ [] ∧ ∀ c ∈ y.num, c.isDigit = true

/-! ### The fallback chains

Each strategy performs network calls that the embedding abstracts by the
strategy's outcome: `Except.error msg` when the strategy threw, `Except.ok r`
when it returned a parsed result.  The chain functions return the final
response together with the number of strategies invoked. -/

/-- A video entry of part_000 (`{url, quality, format: 'mp4'}`; the constant
`format` field is not modelled). -/
structure Video where
  url : S
  quality : S
deriving DecidableEq, Repr

/-- The part of a part_000 parse result the chain inspects (`videos`; the
title/author/description metadata fields are not read by the chain). -/
structure VideoResult where
  videos : List Video
deriving DecidableEq

/-- Models `details: lastError?.message || 'All extraction methods failed'`. -/
def msgOfLast (le : Option S) : S :=
  match le with
  | some e => e
  | none => str "All extraction methods failed"

inductive DLResp
  | success (data : VideoResult)
  | noVideo (details : S)
  | invalidUrl
deriving DecidableEq

/-- Models `result.videos.some(v => v.quality === 'hd' || v.quality === 'high')`. -/
def hasHD (r : VideoResult) : Bool :=
  r.videos.any (fun v => (v.quality == str "hd") || (v.quality == str "high"))

/-- The strategy loop of part_000 `downloadInstagramVideo` (lines 158-202):
on a result with a nonempty `videos` list, return it immediately when it has
an hd/high video, otherwise remember the first such result as `bestResult`;
on a thrown error record it as `lastError`; after the loop return
`bestResult` if it has videos, else the no-video-content failure object
carrying the last error message. -/
def runChain000 :
    List (Except S VideoResult) → Option S → Option VideoResult → DLResp × Nat
  | [], le, best =>
    (match best with
     | some b => if b.videos.length > 0 then .success b else .noVideo (msgOfLast le)
     | none => .noVideo (msgOfLast le), 0)
  | o :: rest, le, best =>
    match o with
    | .error e =>
      let p := runChain000 rest (some e) best
      (p.1, p.2 + 1)
    | .ok r =>
      if r.videos.length > 0 then
        if hasHD r then (.success r, 1)
        else
          let p := runChain000 rest le (match best with | none => some r | some b => some b)
          (p.1, p.2 + 1)
      else
        let p := runChain000 rest le best
        (p.1, p.2 + 1)

/-- part_000 `downloadInstagramVideo` (lines 137-212): validate the cleaned
URL before any strategy runs, then run the chain.  The function is total:
failure is a returned value, never an exception. -/
def downloadInstagramVideo000 (url : S) (outcomes : List (Except S VideoResult)) :
    DLResp × Nat :=
  if isValidInstagramUrl (cleanInstagramUrl url) then runChain000 outcomes none none
  else (.invalidUrl, 0)

/-- The part of a worker.js strategy result the chain inspects (`video_url`). -/
structure WResult where
  video_url : Option S
deriving DecidableEq

inductive WResp
  | success (data : WResult)
  | noVideo (details : S)
  | invalidUrl
deriving DecidableEq

/-- The ReferenceError message produced by calling the helper
`validateAndProxyVideoUrl`, which is not defined anywhere in worker.js. -/
def refErrMsg : S := str "validateAndProxyVideoUrl is not defined"

/-- The strategy loop of worker.js `downloadInstagramVideo` (lines 242-289).
When a result has a `video_url`, the source then calls
`validateAndProxyVideoUrl`, a function that is not defined anywhere in
worker.js; the resulting ReferenceError is thrown inside the loop's `try`,
so the surrounding `catch` records it as `lastError` and the loop continues
with the next strategy.  A result without `video_url` is remembered as
`bestResult` if none is recorded yet. -/
def runChainW :
    List (Except S WResult) → Option S → Option WResult → WResp × Nat
  | [], le, best =>
    (match best with
     | some b => .success b
     | none => .noVideo (msgOfLast le), 0)
  | o :: rest, le, best =>
    match o with
    | .error e =>
      let p := runChainW rest (some e) best
      (p.1, p.2 + 1)
    | .ok r =>
      if r.video_url.isSome then
        let p := runChainW rest (some refErrMsg) best
        (p.1, p.2 + 1)
      else
        let p := runChainW rest le (match best with | none => some r | some b => some b)
        (p.1, p.2 + 1)

/-- worker.js `downloadInstagramVideo` (lines 221-299): validate the cleaned
URL before any strategy runs, then run the chain. -/
def downloadInstagramVideoW (url : S) (outcomes : List (Except S WResult)) :
    WResp × Nat :=
  if isValidInstagramUrl (cleanInstagramUrl url) then runChainW outcomes none none
  else (.invalidUrl, 0)

/-! ### part_001: URL cleaner, media parsing and its chain -/

inductive MKind | video | image
deriving DecidableEq, Repr

/-- A media entry of part_001 (`{type, url, quality, ...}`; the auxiliary
`size`/`original`/`thumbnail` fields are not modelled, no claim reads them). -/
structure MediaEntry where
  mtype : MKind
  url : S
  quality : S
deriving DecidableEq, Repr

/-- The part of a part_001 parse result the chain inspects (`media`, which the
source sets to `null` when nothing was found). -/
structure ImpResult where
  media : Option (List MediaEntry)
deriving DecidableEq

/-- Splitting a character list at every occurrence of `sep`
(JS `String.prototype.split` with a one-character separator). -/
def splitOnChar (sep : Char) : S → List S
  | [] => [[]]
  | c :: rest =>
    if c = sep then [] :: splitOnChar sep rest
    else
      match splitOnChar sep rest with
      | [] => [[c]]
      | p :: ps => (c :: p) :: ps

/-- Models `new URLSearchParams(queryString)` parsing, without
percent-decoding (none of the whitelist keys needs it): split on `&`, drop
empty pieces, key is the part before the first `=`, value the part after it
(empty when there is no `=`). -/
def parseParams (qs : S) : List (S × S) :=
  ((splitOnChar '&' qs).filter (fun p => !p.isEmpty)).map fun piece =>
    (piece.takeWhile (fun ch => ch != '='),
     piece.drop ((piece.takeWhile (fun ch => ch != '=')).length + 1))

/-- Models `params.get(k)` (first value) guarded by `params.has(k)`. -/
def lookupParam (k : S) (ps : List (S × S)) : Option S :=
  (ps.find? (fun kv => kv.1 == k)).map (fun kv => kv.2)

/-- The whitelist `['_nc_ht', '_nc_cat', '_nc_ohc', 'ccb', 'oh', 'oe']` of
part_001 `cleanMediaUrl` (line 335). -/
def essentialParams : List S :=
  [str "_nc_ht", str "_nc_cat", str "_nc_ohc", str "ccb", str "oh", str "oe"]

/-- The parameters the source keeps: for each whitelist key in order, its
first value from the query string, via `newParams.set(param, params.get(param))`. -/
def keptParams (qs : S) : List (S × S) :=
  essentialParams.filterMap fun k => (lookupParam k (parseParams qs)).map fun v => (k, v)

/-- Models `newParams.toString()` (again without percent-encoding). -/
def joinParams : List (S × S) → S
  | [] => []
  | [kv] => kv.1 ++ '=' :: kv.2
  | kv :: rest => kv.1 ++ '=' :: kv.2 ++ '&' :: joinParams rest

/-- The three unescaping replacements shared by all parsers:
`&` to `&`, `\/` to `/`, `\"` to `"`. -/
def unescape3 (u : S) : S :=
  replaceAll (str "\\\"") (str "\"") (replaceAll (str "\\/") (str "/")
    (replaceAll (str "\\u0026") (str "&") u))

/-- The query-string segment of `u` as destructured by
`const [baseUrl, queryString] = url.split('?')`: the part between the first
and the second `?` (anything after a second `?` is discarded). -/
def queryOf (u : S) : S :=
  (u.drop ((u.takeWhile (fun ch => ch != '?')).length + 1)).takeWhile
    (fun ch => ch != '?')

/-- part_001 `cleanMediaUrl` (lines 323-348): unescape, then if the URL has a
query string keep only the whitelisted parameters, dropping the `?` entirely
when none remains. -/
def cleanMediaUrl (raw : S) : S :=
  let u := unescape3 raw
  if u.any (fun ch => ch == '?') then
    let b := u.takeWhile (fun ch => ch != '?')
    let kept := keptParams (queryOf u)
    if (joinParams kept).isEmpty then b else b ++ '?' :: joinParams kept
  else u

/-- part_001 `isValidVideoUrl` (lines 350-357). -/
def isValidVideoUrl (u : S) : Bool :=
  (!u.isEmpty) && litHttps.isPrefixOf u &&
    (occursIn (str ".mp4") u || occursIn (str "video") u) &&
    occursIn (str "scontent") u &&
    (!occursIn (str ".jpg") u) && (!occursIn (str ".jpeg") u)

/-- part_001 `isValidImageUrl` (lines 359-364). -/
def isValidImageUrl (u : S) : Bool :=
  (!u.isEmpty) && litHttps.isPrefixOf u &&
    (occursIn (str ".jpg") u || occursIn (str ".jpeg") u || occursIn (str ".png") u) &&
    occursIn (str "scontent") u

/-- part_001 `determineVideoQuality` (lines 366-371). -/
def determineVideoQuality (u : S) : S :=
  if occursIn (str "_1080p") u || occursIn (str "1080x1080") u then str "hd"
  else if occursIn (str "_720p") u || occursIn (str "720x720") u then str "hd"
  else if occursIn (str "_480p") u then str "standard"
  else str "hd"

/-- The image quality assignment of part_001 (line 273):
`imageUrl.includes('1080x1080') ? 'hd' : 'standard'`, computed on the cleaned
URL before HD conversion. -/
def imageQualityOf (u : S) : S :=
  if occursIn (str "1080x1080") u then str "hd" else str "standard"

/-- part_001 `getHDImageUrl` (lines 373-384): a URL containing `_n.jpg` has
its first occurrence replaced by `_s1080x1080.jpg` (the first candidate format
always differs from the original, so the loop stops there). -/
def getHDImageUrl (u : S) : S :=
  if occursIn (str "_n.jpg") u then
    replaceFirst (str "_n.jpg") (str "_s1080x1080.jpg") u
  else u

/-! ### Global-regex scanning for the fixed patterns of the source

Each pattern of the source is one of three scanner shapes.  The `Nat`
argument counts characters of an emitted match still to be consumed, giving
the `lastIndex` semantics of JS global `exec` while keeping the recursion
structural. -/

/-- Scanner for patterns `LIT([^"]+)"` (with `marker = none`) and
`LIT([^"]+MARKER[^"]*)"` (with `marker = some m`, which requires the marker at
offset at least 1 of the captured run): find the literal, capture the nonempty
run up to the next double quote, require the closing quote. -/
def execFieldAux (pre : S) (marker : Option S) : Nat → S → List S
  | _ + 1, [] => []
  | skip + 1, _ :: rest => execFieldAux pre marker skip rest
  | 0, [] => []
  | 0, c :: rest =>
    if pre.isPrefixOf (c :: rest) then
      let after := (c :: rest).drop pre.length
      let run := after.takeWhile (fun ch => ch != qqC)
      match after.drop run.length with
      | _ :: _ =>
        if (!run.isEmpty) &&
            (match marker with
             | none => true
             | some m => occursIn m (run.drop 1)) then
          run :: execFieldAux pre marker (pre.length + run.length) rest
        else execFieldAux pre marker 0 rest
      | [] => execFieldAux pre marker 0 rest
    else execFieldAux pre marker 0 rest

def execField (pre : S) (marker : Option S) (s : S) : List S :=
  execFieldAux pre marker 0 s

/-- Characters allowed by the class `[^"'\s]` of the free URL patterns. -/
def urlChar (c : Char) : Bool := !((c == qqC) || (c == apoC) || isWsChar c)

/-- Scanner for the free patterns `PRE[^"'\s]+MARKER[^"'\s]*`: at an
occurrence of the literal `PRE`, the maximal run of class characters is
matched whole provided `MARKER` occurs in it at offset at least 1; the whole
match (not a capture group) is the extracted string. -/
def execFreeAux (pre : S) (marker : S) : Nat → S → List S
  | _ + 1, [] => []
  | skip + 1, _ :: rest => execFreeAux pre marker skip rest
  | 0, [] => []
  | 0, c :: rest =>
    if pre.isPrefixOf (c :: rest) then
      let after := (c :: rest).drop pre.length
      let run := after.takeWhile urlChar
      if occursIn marker (run.drop 1) then
        (pre ++ run) :: execFreeAux pre marker (pre.length + run.length - 1) rest
      else execFreeAux pre marker 0 rest
    else execFreeAux pre marker 0 rest

def execFree (pre : S) (marker : S) (s : S) : List S :=
  execFreeAux pre marker 0 s

/-- Scanner for the part_000 pattern
`"video_versions":[{"type":"[^"]+","url":"([^"]+)"`: the type run is not a
capture group, so `match[1]` is the url run (the second run), which is what
this scanner extracts. -/
def execField2Aux (pre mid : S) : Nat → S → List S
  | _ + 1, [] => []
  | skip + 1, _ :: rest => execField2Aux pre mid skip rest
  | 0, [] => []
  | 0, c :: rest =>
    if pre.isPrefixOf (c :: rest) then
      let after := (c :: rest).drop pre.length
      let run1 := after.takeWhile (fun ch => ch != qqC)
      let rem1 := after.drop run1.length
      if (!run1.isEmpty) && mid.isPrefixOf rem1 then
        let after2 := rem1.drop mid.length
        let run2 := after2.takeWhile (fun ch => ch != qqC)
        match after2.drop run2.length with
        | _ :: _ =>
          if !run2.isEmpty then
            run2 :: execField2Aux pre mid
              (pre.length + run1.length + mid.length + run2.length) rest
          else execField2Aux pre mid 0 rest
        | [] => execField2Aux pre mid 0 rest
      else execField2Aux pre mid 0 rest
    else execField2Aux pre mid 0 rest

def execField2 (pre mid : S) (s : S) : List S :=
  execField2Aux pre mid 0 s

/-- The raw matches of the eight `videoPatterns` of part_001
`parseInstagramHTMLImproved` (lines 205-219), in pattern order, each pattern
scanned globally over the whole payload. -/
def videoCandidates (html : S) : List S :=
  execField (str "\"video_url\":\"") none html ++
  execField (str "\"playback_url\":\"") none html ++
  execField (str "<meta property=\"og:video:secure_url\" content=\"") none html ++
  execField (str "<meta property=\"og:video\" content=\"") none html ++
  execField (str "\"contentUrl\":\"") (some (str ".mp4")) html ++
  execField (str "\"embedUrl\":\"") (some (str ".mp4")) html ++
  execFree (str "https://") (str ".mp4") html ++
  execFree (str "https://scontent") (str ".mp4") html

/-- The raw matches of the four `imagePatterns` of part_001 (lines 245-251). -/
def imageCandidates (html : S) : List S :=
  execField (str "\"display_url\":\"") none html ++
  execField (str "<meta property=\"og:image\" content=\"") none html ++
  execFree (str "https://scontent") (str "_n.jpg") html ++
  execFree (str "https://scontent") (str "_s1080x1080") html

/-- The video loop of part_001 (lines 221-242): clean each candidate, keep it
when it is a valid video URL not already in the `foundVideoUrls` set, with
quality from `determineVideoQuality`. -/
def buildVideos : List S → List S → List MediaEntry
  | [], _ => []
  | cand :: rest, found =>
    let u := cleanMediaUrl cand
    if isValidVideoUrl u && !found.contains u then
      ⟨.video, u, determineVideoQuality u⟩ :: buildVideos rest (u :: found)
    else buildVideos rest found

/-- The image loop of part_001 (lines 253-278): clean each candidate,
deduplicate on the cleaned URL, push the HD-converted URL with quality
computed from the cleaned (pre-conversion) URL. -/
def buildImages : List S → List S → List MediaEntry
  | [], _ => []
  | cand :: rest, found =>
    let u := cleanMediaUrl cand
    if isValidImageUrl u && !found.contains u then
      ⟨.image, getHDImageUrl u, imageQualityOf u⟩ :: buildImages rest (u :: found)
    else buildImages rest found

/-- The `media` array of part_001 before thumbnail filtering: all video
entries, then all image entries. -/
def allMediaImp (html : S) : List MediaEntry :=
  buildVideos (videoCandidates html) [] ++ buildImages (imageCandidates html) []

def isVideoEntry (m : MediaEntry) : Bool := m.mtype == MKind.video

/-- The thumbnail filter of part_001 (lines 283-289), as written in the
source: an image entry is kept when its URL does not contain `_n.jpg` or when
the media list contains no video (the latter disjunct is always false on the
branch where the filter runs). -/
def thumbFiltered (l : List MediaEntry) : List MediaEntry :=
  l.filter fun m =>
    if m.mtype == MKind.image then
      (!occursIn (str "_n.jpg") m.url) || (!l.any isVideoEntry)
    else true

/-- The `media` component of part_001 `parseInstagramHTMLImproved`
(lines 187-315): videos then images; when a video is present, the thumbnail
filter is applied (falling back to the unfiltered list if it emptied the
list); the result is `null` when nothing was found. -/
def improvedMedia (html : S) : Option (List MediaEntry) :=
  let media := allMediaImp html
  if media.any isVideoEntry then
    let f := thumbFiltered media
    some (if f.length > 0 then f else media)
  else if media.length > 0 then some media else none

/-! ### part_000: video-only parsing -/

/-- The raw matches of the seven `videoPatterns` of part_000
`parseInstagramHTMLForVideo` (lines 397-405). -/
def videoCandidates000 (html : S) : List S :=
  execField (str "\"video_url\":\"") none html ++
  execField (str "\"playback_url\":\"") none html ++
  execField (str "\"src\":\"") (some (str ".mp4")) html ++
  execField (str "<meta property=\"og:video\" content=\"") none html ++
  execField (str "<meta property=\"og:video:secure_url\" content=\"") none html ++
  execField2 (str "\"video_versions\":[\x7b\"type\":\"") (str "\",\"url\":\"") html ++
  execField (str "\"video_dash_manifest\":\"") none html

/-- The quality assignment of part_000 (lines 432-439): `'hd'` only in the
presence of an explicit marker, `'standard'` otherwise. -/
def quality000 (u : S) : S :=
  if occursIn (str "_hd.mp4") u || occursIn (str "720p") u ||
      occursIn (str "1080p") u || occursIn (str "high") u then str "hd"
  else str "standard"

/-- The video loop of part_000 (lines 408-449): unescape, skip thumbnails and
image extensions, skip non-video URLs, deduplicate by URL
(`!videos.some(v => v.url === videoUrl)`), push with `quality000`. -/
def buildVideos000 : List S → List Video → List Video
  | [], acc => acc
  | cand :: rest, acc =>
    let u := unescape3 cand
    if occursIn (str "thumbnail") u || occursIn (str "_n.jpg") u ||
        occursIn (str ".jpg") u || occursIn (str ".jpeg") u ||
        occursIn (str ".png") u then
      buildVideos000 rest acc
    else if !(occursIn (str ".mp4") u || occursIn (str "video") u) then
      buildVideos000 rest acc
    else if (!u.isEmpty) && !acc.any (fun v => v.url == u) then
      buildVideos000 rest (acc ++ [⟨u, quality000 u⟩])
    else buildVideos000 rest acc

def isHdVideo (v : Video) : Bool := v.quality == str "hd"

/-- The `videos` list of part_000 `parseInstagramHTMLForVideo`
(lines 379-471): the extracted videos, stably sorted hd first (lines 451-456;
`Array.prototype.sort` is stable, and the comparator orders only by the
hd flag, so the sort is the stable partition by `quality === 'hd'`). -/
def parse000videos (html : S) : List Video :=
  let vids := buildVideos000 (videoCandidates000 html) []
  vids.filter isHdVideo ++ vids.filter (fun v => !isHdVideo v)

/-! ### part_001: the chain -/

inductive Resp1
  | success (data : ImpResult)
  | basic (err : S)
  | invalidThrow
deriving DecidableEq

/-- Models `result.media.some(m => m.type === 'video' && m.url && !m.url.includes('.jpg'))`. -/
def hasRealVideo (r : ImpResult) : Bool :=
  match r.media with
  | some l => l.any fun m =>
      (m.mtype == MKind.video) && (!m.url.isEmpty) && (!occursIn (str ".jpg") m.url)
  | none => false

def mediaNonempty (r : ImpResult) : Bool :=
  match r.media with
  | some l => !l.isEmpty
  | none => false

def basicMsg (le : Option S) : S :=
  match le with
  | some e => e
  | none => str "Could not extract HD video URLs - content may be private or protected"

/-- The strategy loop of part_001 `downloadInstagramMedia` (lines 106-150):
stop at the first result with an actual video; remember the first result with
nonempty media otherwise; after the loop return the best result, or the
basic-data object carrying the last error message. -/
def runChain1 :
    List (Except S ImpResult) → Option S → Option ImpResult → Resp1 × Nat
  | [], le, best =>
    (match best with
     | some b => .success b
     | none => .basic (basicMsg le), 0)
  | o :: rest, le, best =>
    match o with
    | .error e =>
      let p := runChain1 rest (some e) best
      (p.1, p.2 + 1)
    | .ok r =>
      if mediaNonempty r then
        if hasRealVideo r then (.success r, 1)
        else
          let p := runChain1 rest le (match best with | none => some r | some b => some b)
          (p.1, p.2 + 1)
      else
        let p := runChain1 rest le best
        (p.1, p.2 + 1)

/-- part_001 `downloadInstagramMedia` (lines 98-155): an invalid URL throws
`'Invalid Instagram URL'` (re-thrown as `'Download failed: ...'`) before any
strategy runs; modelled by the `invalidThrow` response. -/
def downloadInstagramMedia1 (url : S) (outcomes : List (Except S ImpResult)) :
    Resp1 × Nat :=
  if isValidInstagramUrl (cleanInstagramUrl url) then runChain1 outcomes none none
  else (.invalidThrow, 0)

/-! ### The shortcode-gated strategies

worker.js `getDataViaAlternative` (lines 385-390) and `getDataViaEmbed`
(lines 440-445), and part_000 `getVideoViaGraphQL` (lines 246-250), all begin
with `const shortcode = extractShortcode(url); if (!shortcode) throw new
Error('Could not extract shortcode');` before any network call; part_001
`getDataViaGraphQL` (lines 158-162) does the same with the message
`'Could not extract shortcode from URL'`.  The network continuation is
abstracted by an arbitrary function of the shortcode, so a theorem quantified
over `net` holds for every possible network behaviour. -/

def shortcodeGate (net : S → Except S VideoResult) (url : S) : Except S VideoResult :=
  match extractShortcode url with
  | none => Except.error (str "Could not extract shortcode")
  | some sc => net sc

def shortcodeGateLoose (net : S → Except S ImpResult) (url : S) : Except S ImpResult :=
  match extractShortcodeLoose url with
  | none => Except.error (str "Could not extract shortcode from URL")
  | some sc => net sc


/-! ## Helper lemmas -/

theorem runChain000_cons_error (e : S) (l : List (Except S VideoResult))
    (le : Option S) (best : Option VideoResult) :
    runChain000 (Except.error e :: l) le best =
      ((runChain000 l (some e) best).1, (runChain000 l (some e) best).2 + 1) := rfl

theorem runChain000_cons_ok (r : VideoResult) (l : List (Except S VideoResult))
    (le : Option S) (best : Option VideoResult) :
    runChain000 (Except.ok r :: l) le best =
      if r.videos.length > 0 then
        if hasHD r then (DLResp.success r, 1)
        else ((runChain000 l le (match best with | none => some r | some b => some b)).1,
              (runChain000 l le (match best with | none => some r | some b => some b)).2 + 1)
      else ((runChain000 l le best).1, (runChain000 l le best).2 + 1) := rfl

theorem runChainW_cons_error (e : S) (l : List (Except S WResult))
    (le : Option S) (best : Option WResult) :
    runChainW (Except.error e :: l) le best =
      ((runChainW l (some e) best).1, (runChainW l (some e) best).2 + 1) := rfl

theorem runChain000_all_errors (errs : List S) (hne : errs ≠ []) :
    ∀ le : Option S,
      runChain000 (errs.map Except.error) le none =
        (DLResp.noVideo (errs.getLast hne), errs.length) := by
  induction errs with
  | nil => exact absurd rfl hne
  | cons e rest ih =>
    intro le
    cases rest with
    | nil => simp [runChain000, msgOfLast]
    | cons e2 rest2 =>
      have h2 : (e2 :: rest2 : List S) ≠ [] := by simp
      rw [List.map_cons, runChain000_cons_error, ih h2 (some e)]
      simp [List.getLast_cons h2]

theorem runChainW_all_errors (errs : List S) (hne : errs ≠ []) :
    ∀ le : Option S,
      runChainW (errs.map Except.error) le none =
        (WResp.noVideo (errs.getLast hne), errs.length) := by
  induction errs with
  | nil => exact absurd rfl hne
  | cons e rest ih =>
    intro le
    cases rest with
    | nil => simp [runChainW, msgOfLast]
    | cons e2 rest2 =>
      have h2 : (e2 :: rest2 : List S) ≠ [] := by simp
      rw [List.map_cons, runChainW_cons_error, ih h2 (some e)]
      simp [List.getLast_cons h2]

theorem hasHD_videos_pos (r : VideoResult) (h : hasHD r = true) :
    r.videos.length > 0 := by
  rcases List.any_eq_true.mp h with ⟨v, hv, _⟩
  exact List.length_pos.mpr (List.ne_nil_of_mem hv)

theorem runChain000_hd_stops (r : VideoResult) (hhd : hasHD r = true)
    (pre : List (Except S VideoResult))
    (hpre : ∀ o ∈ pre, ∀ r' : VideoResult, o = Except.ok r' → hasHD r' = false) :
    ∀ (post : List (Except S VideoResult)) (le : Option S) (best : Option VideoResult),
      runChain000 (pre ++ Except.ok r :: post) le best =
        (DLResp.success r, pre.length + 1) := by
  induction pre with
  | nil =>
    intro post le best
    rw [List.nil_append, runChain000_cons_ok, if_pos (hasHD_videos_pos r hhd), if_pos hhd]
    simp
  | cons o pre ih =>
    have hpre' : ∀ o ∈ pre, ∀ r' : VideoResult, o = Except.ok r' → hasHD r' = false :=
      fun o ho => hpre o (List.mem_cons_of_mem _ ho)
    intro post le best
    cases o with
    | error e =>
      rw [List.cons_append, runChain000_cons_error, ih hpre' post (some e) best]
      simp
    | ok r' =>
      have hr' : hasHD r' = false := hpre _ (List.mem_cons_self _ _) r' rfl
      rw [List.cons_append, runChain000_cons_ok]
      by_cases hlen : r'.videos.length > 0
      · rw [if_pos hlen, if_neg (by simp [hr'])]
        cases best with
        | none => rw [ih hpre' post le (some r')]; simp
        | some b => rw [ih hpre' post le (some b)]; simp
      · rw [if_neg hlen, ih hpre' post le best]
        simp

/-! ## Claim theorems -/

/-- C1: once validation has passed, the extract operation never raises (both
`downloadInstagramVideo` chains are total functions returning a response
value): when every strategy fails, the response is the no-video-content
failure object with empty media, carrying the last strategy's error message
as its `details` diagnostic, and all strategies were invoked rather than any
error escaping. -/
theorem c1_chain_exhaustion (url : S) (errs : List S) (hne : errs ≠ [])
    (hval : isValidInstagramUrl (cleanInstagramUrl url) = true) :
    downloadInstagramVideo000 url (errs.map Except.error) =
      (DLResp.noVideo (errs.getLast hne), errs.length) ∧
    downloadInstagramVideoW url (errs.map Except.error) =
      (WResp.noVideo (errs.getLast hne), errs.length) := by
  unfold downloadInstagramVideo000 downloadInstagramVideoW
  rw [if_pos hval, if_pos hval]
  exact ⟨runChain000_all_errors errs hne none, runChainW_all_errors errs hne none⟩

theorem c1_chain_exhaustion_witness :
    downloadInstagramVideo000 (str "https://www.instagram.com/p/ABC/")
        [Except.error (str "net fail"), Except.error (str "timeout")] =
      (DLResp.noVideo (str "timeout"), 2) ∧
    downloadInstagramVideoW (str "https://www.instagram.com/p/ABC/")
        [Except.error (str "net fail"), Except.error (str "timeout")] =
      (WResp.noVideo (str "timeout"), 2) := by
  have h := c1_chain_exhaustion (str "https://www.instagram.com/p/ABC/")
    [str "net fail", str "timeout"] (by decide) (by decide)
  exact h

/-- C2: in the part_000 chain (the chain whose stopping rule tests for an
hd-quality video), if strategy number `pre.length` is the first to succeed
with a media sequence containing an hd video, the chain returns that result
and invokes exactly `pre.length + 1` strategies: no strategy after it is ever
invoked, whatever the later outcomes `post` would have been. -/
theorem c2_hd_short_circuit (url : S) (r : VideoResult)
    (pre post : List (Except S VideoResult))
    (hval : isValidInstagramUrl (cleanInstagramUrl url) = true)
    (hhd : hasHD r = true)
    (hpre : ∀ o ∈ pre, ∀ r' : VideoResult, o = Except.ok r' → hasHD r' = false) :
    downloadInstagramVideo000 url (pre ++ Except.ok r :: post) =
      (DLResp.success r, pre.length + 1) := by
  unfold downloadInstagramVideo000
  rw [if_pos hval]
  exact runChain000_hd_stops r hhd pre hpre post none none

theorem c2_hd_short_circuit_witness :
    downloadInstagramVideo000 (str "https://www.instagram.com/reel/XY/")
      [Except.error (str "net fail"),
       Except.ok ⟨[⟨str "https://scontent/v_hd.mp4", str "hd"⟩]⟩,
       Except.ok ⟨[⟨str "https://scontent/w.mp4", str "hd"⟩]⟩] =
      (DLResp.success ⟨[⟨str "https://scontent/v_hd.mp4", str "hd"⟩]⟩, 2) := by
  have h := c2_hd_short_circuit (str "https://www.instagram.com/reel/XY/")
    ⟨[⟨str "https://scontent/v_hd.mp4", str "hd"⟩]⟩
    [Except.error (str "net fail")]
    [Except.ok ⟨[⟨str "https://scontent/w.mp4", str "hd"⟩]⟩]
    (by decide) (by decide)
    (by
      intro o ho r' heq
      simp only [List.mem_singleton] at ho
      subst ho
      exact absurd heq (by simp))
  exact h

/-- C4 counterexample: the input `" https://www.instagram.com/p/ABC"` (with a
leading space) matches none of the four recognized path shapes — the
start-anchored validator regexes reject it as a string — yet the operation
does not reject it: because validation is performed on the trimmed, cleaned
URL, a strategy is invoked and the response is not the invalid-URL error. -/
theorem c4_counterexample :
    isValidInstagramUrl (str " https://www.instagram.com/p/ABC") = false ∧
    (downloadInstagramVideoW (str " https://www.instagram.com/p/ABC")
        [Except.error (str "net fail")]).2 = 1 ∧
    (downloadInstagramVideoW (str " https://www.instagram.com/p/ABC")
        [Except.error (str "net fail")]).1 ≠ WResp.invalidUrl := by
  decide

/-- C4 amended: for every input string whose cleaned (trimmed,
query-stripped, slash-normalized) form matches none of the four recognized
path shapes, all three variants reject with their invalid-URL error before
any strategy runs: zero strategies are invoked. -/
theorem c4_invalid_rejected_before_strategies (url : S)
    (hval : isValidInstagramUrl (cleanInstagramUrl url) = false)
    (w : List (Except S WResult)) (o : List (Except S VideoResult))
    (i : List (Except S ImpResult)) :
    downloadInstagramVideoW url w = (WResp.invalidUrl, 0) ∧
    downloadInstagramVideo000 url o = (DLResp.invalidUrl, 0) ∧
    downloadInstagramMedia1 url i = (Resp1.invalidThrow, 0) := by
  unfold downloadInstagramVideoW downloadInstagramVideo000 downloadInstagramMedia1
  rw [if_neg (by simp [hval]), if_neg (by simp [hval]), if_neg (by simp [hval])]
  exact ⟨rfl, rfl, rfl⟩

theorem c4_invalid_rejected_before_strategies_witness :
    downloadInstagramVideoW (str "https://example.com/p/ABC/")
        [Except.error (str "e")] = (WResp.invalidUrl, 0) ∧
    downloadInstagramVideo000 (str "https://example.com/p/ABC/")
        [Except.error (str "e")] = (DLResp.invalidUrl, 0) ∧
    downloadInstagramMedia1 (str "https://example.com/p/ABC/")
        [Except.error (str "e")] = (Resp1.invalidThrow, 0) := by
  exact c4_invalid_rejected_before_strategies (str "https://example.com/p/ABC/")
    (by decide) _ _ _

/-- C8 counterexample: in part_000's parser, the video candidate
`https://scontent/x.mp4` carries no quality marker at all, yet the assigned
quality is `'standard'`, not the `'hd'` the claim requires for videos. -/
theorem c8_counterexample :
    (parse000videos (str "\"video_url\":\"https://scontent/x.mp4\"")).map
        Video.quality = [str "standard"] ∧
    str "standard" ≠ str "hd" := by
  decide

/-- C8 amended: in the improved parser (part_001) a candidate URL without any
recognized quality marker is classified `'hd'` when it is a video
(`determineVideoQuality`) and `'standard'` when it is an image; in the
video-only parser (part_000) a marker-less video candidate is classified
`'standard'` — `'hd'` requires an explicit `_hd.mp4`/`720p`/`1080p`/`high`
marker. -/
theorem c8_default_quality :
    (∀ u : S, occursIn (str "_1080p") u = false → occursIn (str "1080x1080") u = false →
      occursIn (str "_720p") u = false → occursIn (str "720x720") u = false →
      occursIn (str "_480p") u = false → determineVideoQuality u = str "hd") ∧
    (∀ u : S, occursIn (str "1080x1080") u = false → imageQualityOf u = str "standard") ∧
    (∀ u : S, occursIn (str "_hd.mp4") u = false → occursIn (str "720p") u = false →
      occursIn (str "1080p") u = false → occursIn (str "high") u = false →
      quality000 u = str "standard") := by
  refine ⟨fun u h1 h2 h3 h4 h5 => ?_, fun u h1 => ?_, fun u h1 h2 h3 h4 => ?_⟩
  · simp [determineVideoQuality, h1, h2, h3, h4, h5]
  · simp [imageQualityOf, h1]
  · simp [quality000, h1, h2, h3, h4]

theorem c8_default_quality_witness :
    determineVideoQuality (str "https://scontent/plain.mp4") = str "hd" ∧
    imageQualityOf (str "https://scontent/plain.jpg") = str "standard" ∧
    quality000 (str "https://scontent/plain.mp4") = str "standard" := by
  exact ⟨c8_default_quality.1 (str "https://scontent/plain.mp4")
      (by decide) (by decide) (by decide) (by decide) (by decide),
    c8_default_quality.2.1 (str "https://scontent/plain.jpg") (by decide),
    c8_default_quality.2.2 (str "https://scontent/plain.mp4")
      (by decide) (by decide) (by decide) (by decide)⟩

theorem occursIn_single_eq_false (c : Char) (s : S) (h : ∀ x ∈ s, x ≠ c) :
    occursIn [c] s = false := by
  induction s with
  | nil => rfl
  | cons x rest ih =>
    have hx : x ≠ c := h x (List.mem_cons_self _ _)
    have hrest := ih fun y hy => h y (List.mem_cons_of_mem _ hy)
    simp only [occursIn, hrest, Bool.or_false, List.isPrefixOf]
    simp [beq_eq_false_iff_ne, Ne.symm hx]

/-- C9: for every raw candidate URL, `cleanMediaUrl` first unescapes (the
unicode-escaped ampersand, escaped slash and escaped quote replacements of
`unescape3`) and then filters the query string: every parameter it keeps has a
key in the fixed `essentialParams` whitelist, and when none of the whitelisted
keys occurs in the unescaped URL's query string, the cleaned URL contains no
`?` at all. -/
theorem c9_clean_media_url (raw : S) :
    (∀ kv ∈ keptParams (queryOf (unescape3 raw)), kv.1 ∈ essentialParams) ∧
    ((∀ k ∈ essentialParams,
        lookupParam k (parseParams (queryOf (unescape3 raw))) = none) →
      occursIn ['?'] (cleanMediaUrl raw) = false) := by
  constructor
  · intro kv hkv
    rcases List.mem_filterMap.mp hkv with ⟨k, hk, hmap⟩
    rcases Option.map_eq_some'.mp hmap with ⟨v, _, hkv2⟩
    rw [← hkv2]
    exact hk
  · intro h
    have hkept : keptParams (queryOf (unescape3 raw)) = [] := by
      rw [keptParams, List.filterMap_eq_nil_iff]
      intro k hk
      rw [h k hk]
      rfl
    have hclean : cleanMediaUrl raw =
        if (unescape3 raw).any (fun ch => ch == '?') then
          (if (joinParams (keptParams (queryOf (unescape3 raw)))).isEmpty then
            (unescape3 raw).takeWhile (fun ch => ch != '?')
          else (unescape3 raw).takeWhile (fun ch => ch != '?') ++
            '?' :: joinParams (keptParams (queryOf (unescape3 raw))))
        else unescape3 raw := rfl
    by_cases hq : (unescape3 raw).any (fun ch => ch == '?') = true
    · rw [hclean, if_pos hq, hkept]
      simp only [joinParams, List.isEmpty_nil, if_true]
      refine occursIn_single_eq_false _ _ ?_
      intro x hx
      have hpx := @List.mem_takeWhile_imp Char (fun ch => ch != '?') (unescape3 raw) x hx
      simpa using hpx
    · rw [hclean, if_neg hq]
      refine occursIn_single_eq_false _ _ ?_
      intro x hx hxeq
      subst hxeq
      exact hq (List.any_eq_true.mpr ⟨'?', hx, by simp⟩)

theorem c9_clean_media_url_witness :
    (str "oh") ∈ essentialParams ∧
    occursIn ['?']
      (cleanMediaUrl (str "https://scontent/a.mp4?utm=1&x=2")) = false := by
  refine ⟨?_, (c9_clean_media_url (str "https://scontent/a.mp4?utm=1&x=2")).2 (by decide)⟩
  exact (c9_clean_media_url
    (str "https://scontent/b.mp4?oh=ZZ")).1 (str "oh", str "ZZ") (by decide)

theorem buildVideos_all_video : ∀ (cands found : List S),
    ∀ e ∈ buildVideos cands found, e.mtype = MKind.video := by
  intro cands
  induction cands with
  | nil => intro found e he; simp [buildVideos] at he
  | cons c rest ih =>
    intro found e he
    rw [buildVideos] at he
    split at he
    · rcases List.mem_cons.mp he with rfl | hrest
      · rfl
      · exact ih _ e hrest
    · exact ih _ e he

theorem buildImages_all_image : ∀ (cands found : List S),
    ∀ e ∈ buildImages cands found, e.mtype = MKind.image := by
  intro cands
  induction cands with
  | nil => intro found e he; simp [buildImages] at he
  | cons c rest ih =>
    intro found e he
    rw [buildImages] at he
    split at he
    · rcases List.mem_cons.mp he with rfl | hrest
      · rfl
      · exact ih _ e hrest
    · exact ih _ e he

theorem buildVideos_nodup : ∀ (cands found : List S),
    List.Nodup ((buildVideos cands found).map MediaEntry.url) ∧
      ∀ e ∈ buildVideos cands found, e.url ∉ found := by
  intro cands
  induction cands with
  | nil =>
    intro found
    exact ⟨by simp [buildVideos], by intro e he; simp [buildVideos] at he⟩
  | cons c rest ih =>
    intro found
    rw [buildVideos]
    split
    · next hcond =>
      have hnotin : cleanMediaUrl c ∉ found := by
        have h2 := (Bool.and_eq_true _ _).mp hcond |>.2
        simp only [Bool.not_eq_true'] at h2
        intro hmem
        rw [List.contains_iff_exists_mem_beq.mpr ⟨_, hmem, by simp⟩] at h2
        exact Bool.true_eq_false.mp h2
      obtain ⟨ihn, ihf⟩ := ih (cleanMediaUrl c :: found)
      constructor
      · rw [List.map_cons, List.nodup_cons]
        refine ⟨?_, ihn⟩
        intro hin
        rcases List.mem_map.mp hin with ⟨e, he, heq⟩
        exact ihf e he (heq ▸ List.mem_cons_self _ _)
      · intro e he
        rcases List.mem_cons.mp he with rfl | hrest
        · exact hnotin
        · exact fun hmem => ihf e hrest (List.mem_cons_of_mem _ hmem)
    · exact ih found

theorem buildVideos000_nodup : ∀ (cands : List S) (acc : List Video),
    List.Nodup (acc.map Video.url) →
      List.Nodup ((buildVideos000 cands acc).map Video.url) := by
  intro cands
  induction cands with
  | nil => intro acc h; simpa [buildVideos000] using h
  | cons c rest ih =>
    intro acc h
    rw [buildVideos000]
    split
    · exact ih acc h
    · split
      · exact ih acc h
      · split
        · next hcond =>
          refine ih _ ?_
          have h2 := (Bool.and_eq_true _ _).mp hcond |>.2
          simp only [Bool.not_eq_true'] at h2
          have hnotin : unescape3 c ∉ acc.map Video.url := by
            intro hin
            rcases List.mem_map.mp hin with ⟨v, hv, heq⟩
            have hfv := List.any_eq_false.mp h2 v hv
            simp [heq] at hfv
          rw [List.map_append]
          refine List.Nodup.append h ?_ ?_
          · simp
          · intro a ha hb
            simp only [List.map_cons, List.map_nil, List.mem_singleton] at hb
            subst hb
            exact hnotin ha
        · exact ih acc h

theorem improvedMedia_eq (html : S) :
    improvedMedia html =
      if (allMediaImp html).any isVideoEntry then
        some (if (thumbFiltered (allMediaImp html)).length > 0
              then thumbFiltered (allMediaImp html) else allMediaImp html)
      else if (allMediaImp html).length > 0 then some (allMediaImp html) else none := rfl

theorem improvedMedia_shape (html : S) (m : List MediaEntry)
    (hm : improvedMedia html = some m) :
    ∃ vs ims, m = vs ++ ims ∧ (∀ e ∈ vs, e.mtype = MKind.video) ∧
      (∀ e ∈ ims, e.mtype = MKind.image) := by
  have hBV := buildVideos_all_video (videoCandidates html) []
  have hBI := buildImages_all_image (imageCandidates html) []
  have hsplit : ∀ p : MediaEntry → Bool,
      (allMediaImp html).filter p =
        (buildVideos (videoCandidates html) []).filter p ++
          (buildImages (imageCandidates html) []).filter p := by
    intro p
    rw [allMediaImp, List.filter_append]
  rw [improvedMedia_eq] at hm
  split at hm
  · rw [Option.some_inj] at hm
    subst hm
    by_cases hlen : (thumbFiltered (allMediaImp html)).length > 0
    · rw [if_pos hlen, thumbFiltered, hsplit]
      exact ⟨_, _, rfl,
        fun e he => hBV e (List.mem_of_mem_filter he),
        fun e he => hBI e (List.mem_of_mem_filter he)⟩
    · rw [if_neg hlen, allMediaImp]
      exact ⟨_, _, rfl, hBV, hBI⟩
  · split at hm
    · rw [Option.some_inj] at hm
      subst hm
      rw [allMediaImp]
      exact ⟨_, _, rfl, hBV, hBI⟩
    · exact absurd hm (by simp)

theorem improvedMedia_video_nodup (html : S) (m : List MediaEntry)
    (hm : improvedMedia html = some m) :
    List.Nodup ((m.filter isVideoEntry).map MediaEntry.url) := by
  have hsub : List.Sublist m (allMediaImp html) := by
    rw [improvedMedia_eq] at hm
    split at hm
    · rw [Option.some_inj] at hm
      subst hm
      split
      · rw [thumbFiltered]
        exact List.filter_sublist _
      · exact List.Sublist.refl _
    · split at hm
      · rw [Option.some_inj] at hm
        subst hm
        exact List.Sublist.refl _
      · exact absurd hm (by simp)
  have hfilterBV : (allMediaImp html).filter isVideoEntry =
      buildVideos (videoCandidates html) [] := by
    rw [allMediaImp, List.filter_append, List.filter_eq_self.mpr, List.filter_eq_nil_iff.mpr,
      List.append_nil]
    · intro e he
      have h := buildImages_all_image _ _ e he
      simp [isVideoEntry, h]
    · intro e he
      have h := buildVideos_all_video _ _ e he
      simp [isVideoEntry, h]
  have hs2 : List.Sublist ((m.filter isVideoEntry).map MediaEntry.url)
      (((allMediaImp html).filter isVideoEntry).map MediaEntry.url) :=
    (hsub.filter _).map _
  rw [hfilterBV] at hs2
  exact List.Nodup.sublist hs2 (buildVideos_nodup _ _).1

/-- C5 counterexample: a payload whose first extracted video candidate is
standard quality (`_480p`) and whose second is hd (`_1080p`) yields a final
media sequence with the standard entry before the hd entry — within the video
kind, hd does not precede standard in the improved parser. -/
theorem c5_counterexample :
    improvedMedia (str "\"video_url\":\"https://scontent/a_480p.mp4\",\"video_url\":\"https://scontent/b_1080p.mp4\"") =
      some [⟨MKind.video, str "https://scontent/a_480p.mp4", str "standard"⟩,
            ⟨MKind.video, str "https://scontent/b_1080p.mp4", str "hd"⟩] ∧
    str "standard" ≠ str "hd" := by
  decide

/-- C5 (amended): in every extraction result of the improved parser all video
entries precede all image entries (first-seen order is preserved within each
kind, with no reordering by quality); the video-only parser additionally
sorts its videos hd-first; and a payload yielding one hd video candidate and
one standard image candidate produces the video first. -/
theorem c5_media_ordering :
    (∀ (html : S) (m : List MediaEntry), improvedMedia html = some m →
      ∃ vs ims, m = vs ++ ims ∧ (∀ e ∈ vs, e.mtype = MKind.video) ∧
        (∀ e ∈ ims, e.mtype = MKind.image)) ∧
    (∀ html : S, ∃ hs ts, parse000videos html = hs ++ ts ∧
      (∀ v ∈ hs, v.quality = str "hd") ∧ (∀ v ∈ ts, v.quality ≠ str "hd")) ∧
    improvedMedia (str "<meta property=\"og:video\" content=\"https://scontent-cdn.net/v/abc_1080p.mp4\"><meta property=\"og:image\" content=\"https://scontent-cdn.net/t/xyz.jpg\">") =
      some [⟨MKind.video, str "https://scontent-cdn.net/v/abc_1080p.mp4", str "hd"⟩,
            ⟨MKind.image, str "https://scontent-cdn.net/t/xyz.jpg", str "standard"⟩] := by
  refine ⟨improvedMedia_shape, fun html => ?_, by decide⟩
  refine ⟨(buildVideos000 (videoCandidates000 html) []).filter isHdVideo,
          (buildVideos000 (videoCandidates000 html) []).filter (fun v => !isHdVideo v),
          rfl, ?_, ?_⟩
  · intro v hv
    have h := List.of_mem_filter hv
    simpa [isHdVideo] using h
  · intro v hv
    have h := List.of_mem_filter hv
    simp only [Bool.not_eq_true'] at h
    simpa [isHdVideo] using h

theorem c5_media_ordering_witness :
    ∃ vs ims,
      [(⟨MKind.video, str "https://scontent-cdn.net/v/abc_1080p.mp4", str "hd"⟩ : MediaEntry),
       ⟨MKind.image, str "https://scontent-cdn.net/t/xyz.jpg", str "standard"⟩] = vs ++ ims ∧
      (∀ e ∈ vs, e.mtype = MKind.video) ∧ (∀ e ∈ ims, e.mtype = MKind.image) := by
  exact c5_media_ordering.1
    (str "<meta property=\"og:video\" content=\"https://scontent-cdn.net/v/abc_1080p.mp4\"><meta property=\"og:image\" content=\"https://scontent-cdn.net/t/xyz.jpg\">")
    _ (by decide)

/-- C6 counterexample: a payload containing the same underlying URL twice in
escaped variants (once with escaped slashes inside a `video_url` field, once
plain inside a `display_url` field) produces a media sequence with TWO
entries for that URL — one video and one image — because deduplication is
per kind, not across the whole sequence. -/
theorem c6_counterexample :
    improvedMedia (str "\"video_url\":\"https:\\/\\/scontent\\/a_video.png\" \"display_url\":\"https://scontent/a_video.png\"") =
      some [⟨MKind.video, str "https://scontent/a_video.png", str "hd"⟩,
            ⟨MKind.image, str "https://scontent/a_video.png", str "standard"⟩] ∧
    List.count (str "https://scontent/a_video.png")
      (([⟨MKind.video, str "https://scontent/a_video.png", str "hd"⟩,
         ⟨MKind.image, str "https://scontent/a_video.png", str "standard"⟩] :
        List MediaEntry).map MediaEntry.url) = 2 := by
  decide

/-- C6 (amended): deduplication is keyed on the cleaned URL per kind: in
every improved-parser result the video entries are pairwise distinct by URL
(so escaped duplicate occurrences of the same video URL collapse to exactly
one video entry), and in the video-only parser the whole media sequence is
pairwise distinct by URL; a URL extractable both as a video and as an image
can however appear once in each kind. -/
theorem c6_url_dedup :
    (∀ (html : S) (m : List MediaEntry), improvedMedia html = some m →
      List.Nodup ((m.filter isVideoEntry).map MediaEntry.url)) ∧
    (∀ html : S, List.Nodup ((parse000videos html).map Video.url)) := by
  refine ⟨improvedMedia_video_nodup, fun html => ?_⟩
  have hn := buildVideos000_nodup (videoCandidates000 html) [] (by simp)
  have hperm :
      List.Perm
        (((buildVideos000 (videoCandidates000 html) []).filter isHdVideo ++
          (buildVideos000 (videoCandidates000 html) []).filter
            (fun v => !isHdVideo v)).map Video.url)
        ((buildVideos000 (videoCandidates000 html) []).map Video.url) :=
    (List.filter_append_perm _ _).map _
  rw [show parse000videos html =
      (buildVideos000 (videoCandidates000 html) []).filter isHdVideo ++
        (buildVideos000 (videoCandidates000 html) []).filter (fun v => !isHdVideo v)
    from rfl]
  exact hperm.nodup_iff.mpr hn

theorem c6_url_dedup_witness :
    List.Nodup
      ((([⟨MKind.video, str "https://scontent/a_video.png", str "hd"⟩,
          ⟨MKind.image, str "https://scontent/a_video.png", str "standard"⟩] :
         List MediaEntry).filter isVideoEntry).map MediaEntry.url) := by
  exact c6_url_dedup.1
    (str "\"video_url\":\"https:\\/\\/scontent\\/a_video.png\" \"display_url\":\"https://scontent/a_video.png\"")
    _ (by decide)

/-- C7 counterexample: the payload contains the video
`https://scontent/v1.mp4` and the image `https://scontent/v1_n.jpg`, a
thumbnail of that same base path; the claim requires the thumbnail image
entry to be dropped, but the parser first converts it to the HD variant
`https://scontent/v1_s1080x1080.jpg` (same base path), which no longer
contains the `_n.jpg` marker the filter tests, so the thumbnail's entry
survives in the final media sequence. -/
theorem c7_counterexample :
    improvedMedia (str "\"video_url\":\"https://scontent/v1.mp4\" \"display_url\":\"https://scontent/v1_n.jpg\"") =
      some [⟨MKind.video, str "https://scontent/v1.mp4", str "hd"⟩,
            ⟨MKind.image, str "https://scontent/v1_s1080x1080.jpg", str "standard"⟩] := by
  decide

/-- C7 (amended): when at least one video candidate exists, the improved
parser removes exactly those image entries whose final URL contains the
literal substring `_n.jpg`; it performs no base-path comparison against the
video candidates, and since raw `_n.jpg` image URLs are first rewritten to an
HD variant, a thumbnail of a video generally survives as that variant, while
non-thumbnail images without the marker are kept. -/
theorem c7_thumbnail_filter (html : S)
    (hv : (allMediaImp html).any isVideoEntry = true) :
    improvedMedia html = some ((allMediaImp html).filter
      (fun m => (!(m.mtype == MKind.image)) || (!occursIn (str "_n.jpg") m.url))) := by
  have hfe : thumbFiltered (allMediaImp html) = (allMediaImp html).filter
      (fun m => (!(m.mtype == MKind.image)) || (!occursIn (str "_n.jpg") m.url)) := by
    rw [thumbFiltered]
    refine List.filter_congr ?_
    intro e he
    rw [hv]
    cases hmt : (e.mtype == MKind.image) <;> simp [hmt]
  rcases List.any_eq_true.mp hv with ⟨v, hvmem, hvid⟩
  have hvin : v ∈ thumbFiltered (allMediaImp html) := by
    rw [hfe]
    refine List.mem_filter.mpr ⟨hvmem, ?_⟩
    have hv2 : v.mtype = MKind.video := by simpa [isVideoEntry] using hvid
    simp [hv2]
  have hlen : (thumbFiltered (allMediaImp html)).length > 0 :=
    List.length_pos.mpr (List.ne_nil_of_mem hvin)
  rw [improvedMedia_eq, if_pos hv, if_pos hlen, hfe]

theorem c7_thumbnail_filter_witness :
    improvedMedia (str "\"video_url\":\"https://scontent/v2.mp4\" \"display_url\":\"https://scontent/pic.jpg\"") =
      some ((allMediaImp (str "\"video_url\":\"https://scontent/v2.mp4\" \"display_url\":\"https://scontent/pic.jpg\"")).filter
        (fun m => (!(m.mtype == MKind.image)) || (!occursIn (str "_n.jpg") m.url))) := by
  exact c7_thumbnail_filter _ (by decide)

theorem take_append_left (n : Nat) (a b : S) (h : n ≤ a.length) :
    (a ++ b).take n = a.take n := by
  induction a generalizing n with
  | nil =>
    have : n = 0 := Nat.le_zero.mp h
    subst this
    simp
  | cons x a ih =>
    cases n with
    | zero => simp
    | succ n =>
      simp only [List.cons_append, List.take_succ_cons]
      rw [ih n (Nat.le_of_succ_le_succ h)]

theorem not_prefix_append_short (l a b : S) (hlen : l.length ≤ a.length)
    (h : ¬ List.IsPrefix l a) : ¬ List.IsPrefix l (a ++ b) := by
  intro hp
  apply h
  rw [List.prefix_iff_eq_take] at hp ⊢
  rwa [take_append_left _ _ _ hlen] at hp

theorem not_prefix_append_long (l a b : S) (hlen : a.length ≤ l.length)
    (htake : l.take a.length ≠ a) : ¬ List.IsPrefix l (a ++ b) := by
  rintro ⟨t, ht⟩
  apply htake
  have h1 : (l ++ t).take a.length = l.take a.length :=
    take_append_left _ _ _ hlen
  rw [ht, List.take_left] at h1
  exact h1.symm

theorem stripPre_append (p r : S) : stripPre p (p ++ r) = some r := by
  rw [stripPre, if_pos, List.drop_left]
  rw [ List.isPrefixOf_iff_prefix]
  exact ⟨r, rfl⟩

theorem stripPre_none (l s : S) (h : ¬ List.IsPrefix l s) : stripPre l s = none := by
  rw [stripPre, if_neg]
  rw [ List.isPrefixOf_iff_prefix]
  exact h

theorem sp_https_http (x : S) : stripPre litHttps (litHttp ++ x) = none :=
  stripPre_none _ _ (not_prefix_append_long _ _ _ (by decide) (by decide))

theorem sp_www_host (x : S) : stripPre litWww (litHost ++ x) = none :=
  stripPre_none _ _ (not_prefix_append_short _ _ _ (by decide) (by decide))

theorem afterHost_render (secure www : Bool) (rest : S) :
    afterHost (schemeLit secure ++ (wwwLit www ++ (litHost ++ rest))) = some rest := by
  cases secure <;> cases www <;>
    simp [schemeLit, wwwLit, afterHost, afterScheme, stripPre_append, sp_https_http,
      sp_www_host]

theorem checkTail_append_self (tag : S) (c : Char) (ids rest : S) (hc : idChar c = true) :
    checkTail tag (tag ++ (c :: (ids ++ rest))) = true := by
  rw [checkTail, stripPre_append]
  exact hc

theorem storyChar_ne_slash (c : Char) (h : storyChar c = true) : c ≠ '/' := by
  intro heq
  subst heq
  exact absurd h (by decide)

theorem storiesAux_cons (c : Char) (rest : S) :
    storiesAux (c :: rest) =
      if c = '/' then
        (match rest with | d :: _ => d.isDigit | [] => false)
      else storyChar c && storiesAux rest := rfl

theorem storiesAux_run (ids : S) (hids : ∀ c ∈ ids, storyChar c = true)
    (d : Char) (hd : d.isDigit = true) (x : S) :
    storiesAux (ids ++ '/' :: d :: x) = true := by
  induction ids with
  | nil => simp [storiesAux_cons, hd]
  | cons c ids ih =>
    have hc := hids c (List.mem_cons_self _ _)
    rw [List.cons_append, storiesAux_cons, if_neg (storyChar_ne_slash c hc), hc,
      ih (fun e he => hids e (List.mem_cons_of_mem _ he))]
    rfl

theorem checkStories_append (user num x : S) (hu : user ≠ [])
    (hus : ∀ c ∈ user, storyChar c = true) (hn : num ≠ [])
    (hnd : ∀ c ∈ num, c.isDigit = true) :
    checkStories (litStories ++ (user ++ ('/' :: (num ++ x)))) = true := by
  rw [checkStories, stripPre_append]
  obtain ⟨c, ids, rfl⟩ := List.exists_cons_of_ne_nil hu
  obtain ⟨d, nds, rfl⟩ := List.exists_cons_of_ne_nil hn
  have h1 : storyChar c = true := hus c (List.mem_cons_self _ _)
  have h2 : storiesAux (ids ++ '/' :: d :: (nds ++ x)) = true :=
    storiesAux_run ids (fun e he => hus e (List.mem_cons_of_mem _ he)) d
      (hnd d (List.mem_cons_self _ _)) (nds ++ x)
  show (storyChar c && storiesAux (ids ++ '/' :: ((d :: nds) ++ x))) = true
  rw [List.cons_append, h1, h2]
  rfl

theorem valid_post_render (x : ShapedPost) (hwf : x.WF) :
    isValidInstagramUrl x.render = true := by
  obtain ⟨hne, hch⟩ := hwf
  obtain ⟨c, ids, hid⟩ := List.exists_cons_of_ne_nil hne
  have hc : idChar c = true := hch c (by rw [hid]; exact List.mem_cons_self _ _)
  rw [ShapedPost.render, hid]
  simp only [isValidInstagramUrl, afterHost_render]
  cases hk : x.kind <;> simp only [kindLit, List.cons_append]
  · rw [checkTail_append_self litP c _ _ hc]
    rfl
  · rw [checkTail_append_self litReel c _ _ hc]
    simp
  · rw [checkTail_append_self litTv c _ _ hc]
    simp

theorem valid_story_render (y : ShapedStory) (hwf : y.WF) :
    isValidInstagramUrl y.render = true := by
  obtain ⟨hu, hus, hn, hnd⟩ := hwf
  rw [ShapedStory.render]
  simp only [isValidInstagramUrl, afterHost_render]
  rw [checkStories_append y.user y.num (slashLit y.slash ++ queryLit y.query)
    hu hus hn hnd]
  simp

theorem trimL_eq_self (s : S) (h : ∀ c, s.head? = some c → isWsChar c = false) :
    trimL s = s := by
  cases s with
  | nil => rfl
  | cons c rest =>
    rw [trimL, List.dropWhile_cons, if_neg]
    simp [h c rfl]

theorem trimR_eq_self (s : S) (h : ∀ c, s.getLast? = some c → isWsChar c = false) :
    trimR s = s := by
  have h2 : ∀ c, s.reverse.head? = some c → isWsChar c = false := by
    intro c hc
    rw [List.head?_reverse] at hc
    exact h c hc
  rw [show trimR s = (trimL s.reverse).reverse from rfl, trimL_eq_self s.reverse h2,
    List.reverse_reverse]

theorem trim_eq_self (s : S) (hh : ∀ c, s.head? = some c → isWsChar c = false)
    (hl : ∀ c, s.getLast? = some c → isWsChar c = false) : trim s = s := by
  rw [trim, trimL_eq_self s hh, trimR_eq_self s hl]

theorem head?_dropWhile_false (p : Char → Bool) :
    ∀ (l : S) (c : Char), (l.dropWhile p).head? = some c → p c = false := by
  intro l
  induction l with
  | nil => intro c h; simp at h
  | cons a l ih =>
    intro c h
    rw [List.dropWhile_cons] at h
    split at h
    · exact ih c h
    · next hpa =>
      rw [List.head?_cons, Option.some_inj] at h
      subst h
      simpa using hpa

theorem isPrefix_head? (l m : S) (h : List.IsPrefix l m) (c : Char)
    (hc : l.head? = some c) : m.head? = some c := by
  rcases h with ⟨t, rfl⟩
  cases l with
  | nil => simp at hc
  | cons a l => simpa using hc

theorem trimR_pre_of (s : S) : List.IsPrefix (trimR s) s := by
  have h := List.dropWhile_suffix (l := s.reverse) isWsChar
  rcases h with ⟨t, ht⟩
  refine ⟨t.reverse, ?_⟩
  rw [trimR, ← List.reverse_append, ht, List.reverse_reverse]

theorem trim_head_not_ws (u : S) (c : Char) (h : (trim u).head? = some c) :
    isWsChar c = false := by
  have h2 : (trimL u).head? = some c :=
    isPrefix_head? _ _ (trimR_pre_of (trimL u)) c h
  exact head?_dropWhile_false isWsChar u c h2

theorem trim_getLast_not_ws (u : S) (c : Char) (h : (trim u).getLast? = some c) :
    isWsChar c = false := by
  rw [trim, trimR, List.getLast?_reverse] at h
  exact head?_dropWhile_false isWsChar (trimL u).reverse c h

theorem cleanInstagramUrl_eq (u : S) :
    cleanInstagramUrl u =
      if occursIn litInsta (trim u) then
        (if ((trim u).takeWhile (fun ch => ch != '?')).getLast? == some '/' then
          (trim u).takeWhile (fun ch => ch != '?')
        else (trim u).takeWhile (fun ch => ch != '?') ++ ['/'])
      else trim u := rfl

theorem clean_idem (u : S) :
    cleanInstagramUrl (cleanInstagramUrl u) = cleanInstagramUrl u := by
  by_cases hocc : occursIn litInsta (trim u) = true
  · -- instagram branch: the result B ends in '/', has no '?', and is trim-invariant
    have hres : cleanInstagramUrl u =
        (if ((trim u).takeWhile (fun ch => ch != '?')).getLast? == some '/' then
          (trim u).takeWhile (fun ch => ch != '?')
        else (trim u).takeWhile (fun ch => ch != '?') ++ ['/']) := by
      rw [cleanInstagramUrl_eq, if_pos hocc]
    set base := (trim u).takeWhile (fun ch => ch != '?') with hbase
    have hbase_noq : ∀ x ∈ base, (x != '?') = true := by
      intro x hx
      exact @List.mem_takeWhile_imp Char (fun ch => ch != '?') (trim u) x hx
    have hbase_head : ∀ c, base.head? = some c → isWsChar c = false := by
      intro c hc
      exact trim_head_not_ws u c
        (isPrefix_head? _ _ ( List.takeWhile_prefix _) c hc)
    have key : ∀ B : S, B.getLast? = some '/' → (∀ x ∈ B, (x != '?') = true) →
        (∀ c, B.head? = some c → isWsChar c = false) →
        cleanInstagramUrl B = B := by
      intro B hlast hnoq hhead
      have htrim : trim B = B := by
        refine trim_eq_self B hhead ?_
        intro c hc
        rw [hlast, Option.some_inj] at hc
        subst hc
        decide
      rw [cleanInstagramUrl_eq, htrim]
      by_cases h2 : occursIn litInsta B = true
      · rw [if_pos h2]
        have htw : B.takeWhile (fun ch => ch != '?') = B :=
          List.takeWhile_eq_self_iff.mpr hnoq
        rw [htw, if_pos (by rw [hlast]; rfl)]
      · rw [if_neg h2]
    rw [hres]
    by_cases hsl : (base.getLast? == some '/') = true
    · rw [if_pos hsl]
      refine key base ?_ hbase_noq hbase_head
      exact beq_iff_eq.mp hsl
    · rw [if_neg hsl]
      refine key (base ++ ['/']) (List.getLast?_concat _) ?_ ?_
      · intro x hx
        rcases List.mem_append.mp hx with hx | hx
        · exact hbase_noq x hx
        · rw [List.mem_singleton] at hx
          subst hx
          decide
      · intro c hc
        cases hb : base with
        | nil =>
          rw [hb] at hc
          simp at hc
          subst hc
          decide
        | cons b bs =>
          rw [hb, List.cons_append, List.head?_cons, Option.some_inj] at hc
          subst hc
          exact hbase_head b (by rw [hb]; rfl)
  · -- non-instagram branch: the result is trim u, and trimming is idempotent
    have hres : cleanInstagramUrl u = trim u := by
      rw [cleanInstagramUrl_eq, if_neg hocc]
    rw [hres, cleanInstagramUrl_eq,
      trim_eq_self (trim u) (trim_head_not_ws u) (trim_getLast_not_ws u), if_neg hocc]

/-- C3: every string of a recognized post/reel/igtv/story path shape — any
scheme (`http`/`https`), with or without `www.`, with or without trailing
slash, with or without query string — is accepted by the validator, and
normalization is idempotent on every input string:
`cleanInstagramUrl (cleanInstagramUrl u) = cleanInstagramUrl u`. -/
theorem c3_validator_accepts_and_normalize_idempotent :
    (∀ x : ShapedPost, x.WF → isValidInstagramUrl x.render = true) ∧
    (∀ y : ShapedStory, y.WF → isValidInstagramUrl y.render = true) ∧
    (∀ u : S, cleanInstagramUrl (cleanInstagramUrl u) = cleanInstagramUrl u) :=
  ⟨valid_post_render, valid_story_render, clean_idem⟩

theorem c3_validator_accepts_and_normalize_idempotent_witness :
    isValidInstagramUrl
      (ShapedPost.render ⟨true, true, PostKind.reel, str "ABC123", false, some (str "utm=x")⟩) = true ∧
    isValidInstagramUrl
      (ShapedStory.render ⟨true, false, str "user.name", str "12345", true, none⟩) = true ∧
    cleanInstagramUrl (cleanInstagramUrl (str " https://www.instagram.com/reel/ABC123?utm=x")) =
      cleanInstagramUrl (str " https://www.instagram.com/reel/ABC123?utm=x") := by
  exact ⟨c3_validator_accepts_and_normalize_idempotent.1 _ ⟨by decide, by decide⟩,
    c3_validator_accepts_and_normalize_idempotent.2.1 _
      ⟨by decide, by decide, by decide, by decide⟩,
    c3_validator_accepts_and_normalize_idempotent.2.2 _⟩

theorem litP_eq : litP = ['p', '/'] := rfl
theorem litReel_eq : litReel = ['r', 'e', 'e', 'l', '/'] := rfl
theorem litTv_eq : litTv = ['t', 'v', '/'] := rfl

theorem exCons (idp : Char → Bool) (c : Char) (rest : S) :
    extractShortcodeWith idp (c :: rest) =
      if c = '/' then
        (match shortcodeAtWith idp rest with
         | some r => some r
         | none => extractShortcodeWith idp rest)
      else extractShortcodeWith idp rest := rfl

theorem shortcodeAt_nil (idp : Char → Bool) : shortcodeAtWith idp [] = none := rfl

theorem not_prefix_head_ne (a : Char) (l : S) (c : Char) (s : S) (h : a ≠ c) :
    ¬ List.IsPrefix (a :: l) (c :: s) := by
  rintro ⟨k, hk⟩
  have hh := congrArg List.head? hk
  simp only [List.cons_append, List.head?_cons, Option.some_inj] at hh
  exact h hh

theorem shortcodeAt_none_head (idp : Char → Bool) (c : Char) (s : S)
    (hp : c ≠ 'p') (hr : c ≠ 'r') (ht : c ≠ 't') :
    shortcodeAtWith idp (c :: s) = none := by
  have t1 : tryTagWith idp litP (c :: s) = none := by
    unfold tryTagWith
    rw [stripPre_none _ _ (by rw [litP_eq]; exact not_prefix_head_ne 'p' _ c s (Ne.symm hp))]
  have t2 : tryTagWith idp litReel (c :: s) = none := by
    unfold tryTagWith
    rw [stripPre_none _ _ (by rw [litReel_eq]; exact not_prefix_head_ne 'r' _ c s (Ne.symm hr))]
  have t3 : tryTagWith idp litTv (c :: s) = none := by
    unfold tryTagWith
    rw [stripPre_none _ _ (by rw [litTv_eq]; exact not_prefix_head_ne 't' _ c s (Ne.symm ht))]
  unfold shortcodeAtWith
  rw [t1, t2, t3]

theorem shortcodeAt_digit_head (idp : Char → Bool) (d : Char) (s : S)
    (hd : d.isDigit = true) : shortcodeAtWith idp (d :: s) = none := by
  refine shortcodeAt_none_head idp d s ?_ ?_ ?_ <;>
    (intro h; subst h; exact absurd hd (by decide))

theorem digit_ne_slash (d : Char) (hd : d.isDigit = true) : d ≠ '/' := by
  intro h
  subst h
  exact absurd hd (by decide)

theorem tag_prefix_forces (t U R : S) (ht : '/' ∉ t) (hU : ∀ c ∈ U, c ≠ '/')
    (h : List.IsPrefix (t ++ ['/']) (U ++ '/' :: R)) : U = t := by
  rcases h with ⟨k, hk⟩
  rw [List.append_assoc] at hk
  rcases List.append_eq_append_iff.mp hk with ⟨a, ha1, ha2⟩ | ⟨c', hc1, hc2⟩
  · cases a with
    | nil => simpa using ha1
    | cons x a2 =>
      have hx : x = '/' := by
        have hh := congrArg List.head? ha2
        simp only [List.cons_append, List.singleton_append, List.head?_cons,
          Option.some_inj] at hh
        exact hh.symm
      subst hx
      have hmem : '/' ∈ U := by
        rw [ha1]
        exact List.mem_append.mpr (Or.inr (List.mem_cons_self _ _))
      exact absurd rfl (hU '/' hmem)
  · cases c' with
    | nil => simpa using hc1.symm
    | cons x c2 =>
      have hx : x = '/' := by
        have hh := congrArg List.head? hc2
        simp only [List.cons_append, List.head?_cons, Option.some_inj] at hh
        exact hh.symm
      subst hx
      have hmem : '/' ∈ t := by
        rw [hc1]
        exact List.mem_append.mpr (Or.inr (List.mem_cons_self _ _))
      exact absurd hmem ht

theorem shortcodeAt_append_none (idp : Char → Bool) (U R : S)
    (hU : ∀ c ∈ U, storyChar c = true)
    (hp : U ≠ str "p") (hr : U ≠ str "reel") (ht : U ≠ str "tv") :
    shortcodeAtWith idp (U ++ '/' :: R) = none := by
  have hU2 : ∀ c ∈ U, c ≠ '/' := fun c hc => storyChar_ne_slash c (hU c hc)
  have htag : ∀ t : S, '/' ∉ t → U ≠ t →
      stripPre (t ++ ['/']) (U ++ '/' :: R) = none := by
    intro t hts hne
    refine stripPre_none _ _ ?_
    intro hpre
    exact hne (tag_prefix_forces t U R hts hU2 hpre)
  have t1 : tryTagWith idp litP (U ++ '/' :: R) = none := by
    unfold tryTagWith
    rw [show stripPre litP (U ++ '/' :: R) = none from htag (str "p") (by decide) hp]
  have t2 : tryTagWith idp litReel (U ++ '/' :: R) = none := by
    unfold tryTagWith
    rw [show stripPre litReel (U ++ '/' :: R) = none from htag (str "reel") (by decide) hr]
  have t3 : tryTagWith idp litTv (U ++ '/' :: R) = none := by
    unfold tryTagWith
    rw [show stripPre litTv (U ++ '/' :: R) = none from htag (str "tv") (by decide) ht]
  unfold shortcodeAtWith
  rw [t1, t2, t3]

theorem scan_digits_none (idp : Char → Bool) (ds : S)
    (hds : ∀ c ∈ ds, c.isDigit = true) :
    extractShortcodeWith idp (ds ++ ['/']) = none := by
  induction ds with
  | nil =>
    rw [List.nil_append, exCons, if_pos rfl, shortcodeAt_nil]
    rfl
  | cons d ds2 ih =>
    rw [List.cons_append, exCons,
      if_neg (digit_ne_slash d (hds d (List.mem_cons_self _ _)))]
    exact ih fun c hc => hds c (List.mem_cons_of_mem _ hc)

theorem scan_user_digits_none (idp : Char → Bool) (U ds : S)
    (hU : ∀ c ∈ U, storyChar c = true) (hds : ∀ c ∈ ds, c.isDigit = true)
    (hne : ds ≠ []) :
    extractShortcodeWith idp (U ++ '/' :: (ds ++ ['/'])) = none := by
  induction U with
  | nil =>
    rw [List.nil_append, exCons, if_pos rfl]
    obtain ⟨d, ds2, rfl⟩ := List.exists_cons_of_ne_nil hne
    rw [List.cons_append,
      shortcodeAt_digit_head idp d _ (hds d (List.mem_cons_self _ _))]
    rw [← List.cons_append]
    exact scan_digits_none idp (d :: ds2) hds
  | cons c U2 ih =>
    rw [List.cons_append, exCons,
      if_neg (storyChar_ne_slash c (hU c (List.mem_cons_self _ _)))]
    exact ih fun e he => hU e (List.mem_cons_of_mem _ he)

theorem scan_story_start (idp : Char → Bool) (sec www : Bool) (U num : S) :
    extractShortcodeWith idp
      (schemeLit sec ++ (wwwLit www ++ (litHost ++ (litStories ++
        (U ++ ('/' :: (num ++ ['/']))))))) =
      (match shortcodeAtWith idp (U ++ '/' :: (num ++ ['/'])) with
       | some r => some r
       | none => extractShortcodeWith idp (U ++ '/' :: (num ++ ['/']))) := by
  cases sec <;> cases www <;> rfl

theorem extract_story_none (idp : Char → Bool) (sec www : Bool) (U num : S)
    (hU : ∀ c ∈ U, storyChar c = true) (hnum : ∀ c ∈ num, c.isDigit = true)
    (hne : num ≠ []) (hp : U ≠ str "p") (hr : U ≠ str "reel") (ht : U ≠ str "tv") :
    extractShortcodeWith idp
      (schemeLit sec ++ (wwwLit www ++ (litHost ++ (litStories ++
        (U ++ ('/' :: (num ++ ['/']))))))) = none := by
  rw [scan_story_start, shortcodeAt_append_none idp U _ hU hp hr ht]
  exact scan_user_digits_none idp U num hU hnum hne

/-- C10 counterexample: `https://www.instagram.com/stories/tv/123/` is a
story URL of the path shape `/stories/<user>/<id>/` (username `tv`) that the
validator accepts, yet shortcode extraction returns the story id `123`
instead of null, and a shortcode-based strategy then proceeds with that bogus
shortcode — it does not fail immediately and can succeed for a suitable
network behaviour. -/
theorem c10_counterexample :
    isValidInstagramUrl (str "https://www.instagram.com/stories/tv/123/") = true ∧
    extractShortcode (str "https://www.instagram.com/stories/tv/123/") =
      some (str "123") ∧
    shortcodeGate (fun sc => Except.ok ⟨[⟨sc, str "hd"⟩]⟩)
      (str "https://www.instagram.com/stories/tv/123/") =
      Except.ok ⟨[⟨str "123", str "hd"⟩]⟩ := by
  exact ⟨by decide, by decide, rfl⟩

/-- C10 (amended): for every story URL of the canonical path shape
`/stories/<user>/<id>/` whose username is not literally `p`, `reel` or `tv`,
validation accepts the URL while both shortcode extractors return null, so
every shortcode-based strategy (worker.js `getDataViaAlternative` and
`getDataViaEmbed`, part_000 `getVideoViaGraphQL`, part_001
`getDataViaGraphQL`) fails immediately with its could-not-extract-shortcode
error for every possible network behaviour — only the direct-fetch and proxy
strategies can succeed on such story URLs.  (For usernames `p`, `reel` or
`tv` the extractor instead returns the story id as a bogus shortcode, see the
counterexample.) -/
theorem c10_story_shortcode (y : ShapedStory) (hwf : y.WF)
    (hslash : y.slash = true) (hquery : y.query = none)
    (hp : y.user ≠ str "p") (hr : y.user ≠ str "reel") (ht : y.user ≠ str "tv") :
    isValidInstagramUrl y.render = true ∧
    extractShortcode y.render = none ∧
    extractShortcodeLoose y.render = none ∧
    (∀ net : S → Except S VideoResult,
      shortcodeGate net y.render = Except.error (str "Could not extract shortcode")) ∧
    (∀ net : S → Except S ImpResult,
      shortcodeGateLoose net y.render =
        Except.error (str "Could not extract shortcode from URL")) := by
  have hvalid := valid_story_render y hwf
  obtain ⟨hu, hus, hn, hnd⟩ := hwf
  have hrender : y.render =
      schemeLit y.secure ++ (wwwLit y.www ++ (litHost ++ (litStories ++
        (y.user ++ ('/' :: (y.num ++ ['/'])))))) := by
    rw [ShapedStory.render, hslash, hquery]
    simp [slashLit, queryLit]
  have hex : ∀ idp : Char → Bool, extractShortcodeWith idp y.render = none := by
    intro idp
    rw [hrender]
    exact extract_story_none idp y.secure y.www y.user y.num hus hnd hn hp hr ht
  refine ⟨hvalid, hex idChar, hex _, fun net => ?_, fun net => ?_⟩
  · unfold shortcodeGate
    rw [show extractShortcode y.render = none from hex idChar]
  · unfold shortcodeGateLoose
    rw [show extractShortcodeLoose y.render = none from hex _]

theorem c10_story_shortcode_witness :
    extractShortcode
      (ShapedStory.render ⟨true, true, str "user.name", str "12345", true, none⟩) =
      none ∧
    shortcodeGate (fun sc => Except.ok ⟨[⟨sc, str "hd"⟩]⟩)
      (ShapedStory.render ⟨true, true, str "user.name", str "12345", true, none⟩) =
      Except.error (str "Could not extract shortcode") := by
  have h := c10_story_shortcode ⟨true, true, str "user.name", str "12345", true, none⟩
    ⟨by decide, by decide, by decide, by decide⟩ rfl rfl
    (by decide) (by decide) (by decide)
  exact ⟨h.2.1, h.2.2.2.1 _⟩
